import Mathlib

/-!
Verification of the global-root registry of the OCaml runtime
(runtime/globroots.c) against its natural-language specification.

The three root registries (mutable, young-generational, old-generational)
are skiplists keyed by the root's address, with data ROOT_PRESENT or
ROOT_DELETED (a tombstone left by a deletion issued while an iteration is
in progress).  The skiplist itself lives outside the sampled sources and is
modelled, from the spec's ordered-map contract, as a key-ordered association
list.  Memory is modelled explicitly as a map from root addresses to managed
values, and the registry operations are explicit state transformers on one
record holding the three registries, the per-thread iteration counter and
memory.  Operations are linearized (the spec's single lock serializes them),
so states between completed operations are exactly the lock-free points.
-/

set_option maxRecDepth 4000

/-- Root entry data: the entry is live. -/
def ROOT_PRESENT : Nat := 0

/-- Root entry data: the entry was deleted during an iteration and awaits
physical removal (a tombstone). -/
def ROOT_DELETED : Nat := 1

/-- Modelled from the spec: the Ordered Root Map (the runtime skiplist,
declared in caml/skiplist.h, outside the sampled sources) consumed through
its map contract — keyed insert, keyed remove, keyed find, empty, ordered
iteration.  Represented as a key-ordered association list from root
addresses to entry data. -/
abbrev Skiplist := List (Nat × Nat)

/-- Modelled from the spec: keyed insert (caml_skiplist_insert).  Inserts at
the ordered position; an existing entry with the same key has its data
overwritten. -/
def slInsert : Skiplist → Nat → Nat → Skiplist
  | [], k, d => [(k, d)]
  | (k0, d0) :: t, k, d =>
    if k < k0 then (k, d) :: (k0, d0) :: t
    else if k = k0 then (k, d) :: t
    else (k0, d0) :: slInsert t k d

/-- Modelled from the spec: keyed remove (caml_skiplist_remove).  Removing an
absent key leaves the map unchanged. -/
def slRemove : Skiplist → Nat → Skiplist
  | [], _ => []
  | (k0, d0) :: t, k => if k = k0 then t else (k0, d0) :: slRemove t k

/-- Modelled from the spec: keyed lookup (caml_skiplist_find /
caml_skiplist_find_ptr), returning the entry's data when the key is bound. -/
def slFind : Skiplist → Nat → Option Nat
  | [], _ => none
  | (k0, d0) :: t, k => if k = k0 then some d0 else slFind t k

/-- Modelled from the spec: caml_skiplist_find_ptr followed by writing
ROOT_DELETED through the returned data slot — the tombstone path of
caml_delete_global_root.  An absent key leaves the map unchanged. -/
def slMarkDeleted : Skiplist → Nat → Skiplist
  | [], _ => []
  | (k0, d0) :: t, k =>
    if k = k0 then (k0, ROOT_DELETED) :: t else (k0, d0) :: slMarkDeleted t k

/-- Modelled from the spec: the managed value representation (caml/mlvalues.h,
outside the sampled sources).  A value is a small integer, a pointer into the
young (minor) heap, a pointer into the old (major) heap, or a word-aligned
pointer outside the managed heap. -/
inductive GcVal where
  | imm (n : Int) : GcVal
  | young (a : Nat) : GcVal
  | major (a : Nat) : GcVal
  | outside (a : Nat) : GcVal
deriving DecidableEq

/-- Modelled from the spec: the tagged-integer test (a value is a block iff it
is not an immediate integer; pointers outside the managed heap still carry the
block tag). -/
def Is_block : GcVal → Bool
  | .imm _ => false
  | _ => true

/-- Modelled from the spec: the minor-heap address-range test (true exactly
for pointers into the young generation). -/
def Is_young : GcVal → Bool
  | .young _ => true
  | _ => false

/-- Classification of a root's value, from globroots.c. -/
inductive GcRootClass where
  | YOUNG | OLD | UNTRACKED
deriving DecidableEq

/-- classify_gc_root from globroots.c: UNTRACKED when not a block, YOUNG when
in the minor heap, OLD otherwise. -/
def classify_gc_root (v : GcVal) : GcRootClass :=
  if !Is_block v then .UNTRACKED
  else if Is_young v then .YOUNG
  else .OLD

/-- The global state of globroots.c: the three registries, the per-thread
iteration-depth counter iterating_roots, and the memory holding each root's
current value. -/
structure GlobalRoots where
  caml_global_roots : Skiplist
  caml_global_roots_young : Skiplist
  caml_global_roots_old : Skiplist
  iterating_roots : Nat
  mem : Nat → GcVal

/-- Which of the three root lists an operation addresses (the list pointer
argument of the C helpers). -/
inductive RootList where
  | roots | rootsYoung | rootsOld
deriving DecidableEq

def getReg (s : GlobalRoots) : RootList → Skiplist
  | .roots => s.caml_global_roots
  | .rootsYoung => s.caml_global_roots_young
  | .rootsOld => s.caml_global_roots_old

def setReg (s : GlobalRoots) : RootList → Skiplist → GlobalRoots
  | .roots, l => { s with caml_global_roots := l }
  | .rootsYoung, l => { s with caml_global_roots_young := l }
  | .rootsOld, l => { s with caml_global_roots_old := l }

/-- caml_insert_global_root: under the lock, insert a ROOT_PRESENT entry
keyed by the root's address. -/
def caml_insert_global_root (s : GlobalRoots) (L : RootList) (r : Nat) : GlobalRoots :=
  setReg s L (slInsert (getReg s L) r ROOT_PRESENT)

/-- caml_delete_global_root: when the current thread is iterating
(iterating_roots positive) tombstone the entry in place; otherwise remove it
structurally under the lock. -/
def caml_delete_global_root (s : GlobalRoots) (L : RootList) (r : Nat) : GlobalRoots :=
  if 0 < s.iterating_roots then
    setReg s L (slMarkDeleted (getReg s L) r)
  else
    setReg s L (slRemove (getReg s L) r)

/-- caml_register_global_root: register a mutable-kind root. -/
def caml_register_global_root (s : GlobalRoots) (r : Nat) : GlobalRoots :=
  caml_insert_global_root s .roots r

/-- caml_remove_global_root: unregister a mutable-kind root. -/
def caml_remove_global_root (s : GlobalRoots) (r : Nat) : GlobalRoots :=
  caml_delete_global_root s .roots r

/-- caml_register_generational_global_root: classify the root's current value
and insert into the young or old registry accordingly; untracked values are
not registered. -/
def caml_register_generational_global_root (s : GlobalRoots) (r : Nat) : GlobalRoots :=
  match classify_gc_root (s.mem r) with
  | .YOUNG => caml_insert_global_root s .rootsYoung r
  | .OLD => caml_insert_global_root s .rootsOld r
  | .UNTRACKED => s

/-- caml_remove_generational_global_root: classify the current value; OLD
deletes from the old registry and falls through to also delete from the young
registry; YOUNG deletes from the young registry only; UNTRACKED does
nothing. -/
def caml_remove_generational_global_root (s : GlobalRoots) (r : Nat) : GlobalRoots :=
  match classify_gc_root (s.mem r) with
  | .OLD => caml_delete_global_root (caml_delete_global_root s .rootsOld r) .rootsYoung r
  | .YOUNG => caml_delete_global_root s .rootsYoung r
  | .UNTRACKED => s

/-- The final assignment of caml_modify_generational_global_root: write the
new value into the root's memory slot. -/
def memWrite (s : GlobalRoots) (r : Nat) (v : GcVal) : GlobalRoots :=
  { s with mem := fun a => if a = r then v else s.mem a }

/-- caml_modify_generational_global_root: adjust registry membership from the
classes of the old and new values, then assign the new value.  A root whose
value goes young-to-old is deliberately left in the young registry (deferred
promotion). -/
def caml_modify_generational_global_root (s : GlobalRoots) (r : Nat) (newval : GcVal) :
    GlobalRoots :=
  memWrite
    (match classify_gc_root newval with
     | .YOUNG =>
       let c := classify_gc_root (s.mem r)
       let s1 := if c = .OLD then caml_delete_global_root s .rootsOld r else s
       if c ≠ .YOUNG then caml_insert_global_root s1 .rootsYoung r else s1
     | .OLD =>
       if classify_gc_root (s.mem r) = .UNTRACKED then
         caml_insert_global_root s .rootsOld r
       else s
     | .UNTRACKED => caml_remove_generational_global_root s r)
    r newval

/-- The GC scanning action: invoked with the current state, the root's
current value and the root's address; may mutate the state (e.g. tombstone a
root through the reentrancy-aware deletion path). -/
abbrev ScanCb := GlobalRoots → GcVal → Nat → GlobalRoots

/-- A scanning action with no state effect (pure observation). -/
def passiveCb : ScanCb := fun s _ _ => s

/-- The body of caml_iterate_global_roots over the snapshot of keys: a
ROOT_DELETED entry is physically removed as the walk passes it; a live entry
has the callback invoked on the root's current value and address.  Returns
the resulting state and the addresses visited, in order. -/
def iterKeys (f : ScanCb) (L : RootList) : GlobalRoots → List Nat → GlobalRoots × List Nat
  | s, [] => (s, [])
  | s, k :: rest =>
    match slFind (getReg s L) k with
    | none => iterKeys f L s rest
    | some d =>
      if d = ROOT_DELETED then
        iterKeys f L (setReg s L (slRemove (getReg s L) k)) rest
      else
        let p := iterKeys f L (f s (s.mem k) k) rest
        (p.1, k :: p.2)

/-- caml_iterate_global_roots: walk one root list in key order, purging
tombstones and invoking the scanning action on live entries. -/
def caml_iterate_global_roots (f : ScanCb) (L : RootList) (s : GlobalRoots) :
    GlobalRoots × List Nat :=
  iterKeys f L s ((getReg s L).map Prod.fst)

/-- The promotion loop of caml_scan_global_young_roots: every entry of the
young registry is inserted into the old registry with data 0 (ROOT_PRESENT),
whatever its own mark. -/
def promoteYoungIntoOld (young old : Skiplist) : Skiplist :=
  List.foldl (fun acc e => slInsert acc e.1 ROOT_PRESENT) old young

/-- caml_scan_global_roots: under the lock and with the iteration counter
raised, walk the mutable, young and old registries in that order. -/
def caml_scan_global_roots (f : ScanCb) (s : GlobalRoots) : GlobalRoots × List Nat :=
  let s1 := { s with iterating_roots := s.iterating_roots + 1 }
  let p1 := caml_iterate_global_roots f .roots s1
  let p2 := caml_iterate_global_roots f .rootsYoung p1.1
  let p3 := caml_iterate_global_roots f .rootsOld p2.1
  ({ p3.1 with iterating_roots := p3.1.iterating_roots - 1 }, p1.2 ++ p2.2 ++ p3.2)

/-- caml_scan_global_young_roots: walk the mutable and young registries, then
move every young entry into the old registry (data ROOT_PRESENT) and clear
the young registry. -/
def caml_scan_global_young_roots (f : ScanCb) (s : GlobalRoots) : GlobalRoots × List Nat :=
  let s1 := { s with iterating_roots := s.iterating_roots + 1 }
  let p1 := caml_iterate_global_roots f .roots s1
  let p2 := caml_iterate_global_roots f .rootsYoung p1.1
  let s2 := p2.1
  let s3 := { s2 with
    caml_global_roots_old :=
      promoteYoungIntoOld s2.caml_global_roots_young s2.caml_global_roots_old,
    caml_global_roots_young := [] }
  ({ s3 with iterating_roots := s3.iterating_roots - 1 }, p1.2 ++ p2.2)

/-- The state at runtime start: all three registries empty, no iteration in
progress, memory arbitrary. -/
def initState (m : Nat → GcVal) : GlobalRoots :=
  { caml_global_roots := [], caml_global_roots_young := [],
    caml_global_roots_old := [], iterating_roots := 0, mem := m }

/-- The public mutator and collector operations, used to describe the states
reachable at points where no thread holds the lock.  The scan operations run
with the passive scanning action. -/
inductive Op where
  | regMut (r : Nat)
  | remMut (r : Nat)
  | regGen (r : Nat)
  | remGen (r : Nat)
  | modGen (r : Nat) (v : GcVal)
  | scanAll
  | scanYoung

def applyOp (s : GlobalRoots) : Op → GlobalRoots
  | .regMut r => caml_register_global_root s r
  | .remMut r => caml_remove_global_root s r
  | .regGen r => caml_register_generational_global_root s r
  | .remGen r => caml_remove_generational_global_root s r
  | .modGen r v => caml_modify_generational_global_root s r v
  | .scanAll => (caml_scan_global_roots passiveCb s).1
  | .scanYoung => (caml_scan_global_young_roots passiveCb s).1

/-- Run a sequence of public operations from the initial state with the given
memory: the reachable lock-free states. -/
def runOps (m : Nat → GcVal) (ops : List Op) : GlobalRoots :=
  List.foldl applyOp (initState m) ops

/-- Every entry of the registry is live (no tombstone). -/
def regAllPresent (l : Skiplist) : Prop := ∀ e ∈ l, e.2 = ROOT_PRESENT

/-- The registry's keys are strictly increasing (the skiplist order). -/
def keySorted (l : Skiplist) : Prop := List.Pairwise (fun a b => a.1 < b.1) l

/-- The inductive invariant of the lock-free states: no iteration in
progress, no tombstones in any registry, the young registry key-ordered, and
every young-registry entry's root holding a tracked (heap) value. -/
def RootsInv (s : GlobalRoots) : Prop :=
  s.iterating_roots = 0 ∧
  regAllPresent s.caml_global_roots ∧
  regAllPresent s.caml_global_roots_young ∧
  regAllPresent s.caml_global_roots_old ∧
  keySorted s.caml_global_roots_young ∧
  ∀ e ∈ s.caml_global_roots_young,
    classify_gc_root (s.mem e.1) ≠ GcRootClass.UNTRACKED

/-! ## Basic lemmas about the modelled ordered map -/

theorem slFind_slInsert_self (l : Skiplist) (k d : Nat) :
    slFind (slInsert l k d) k = some d := by
  induction l with
  | nil => simp [slInsert, slFind]
  | cons e t ih =>
    obtain ⟨k0, d0⟩ := e
    by_cases h1 : k < k0
    · simp [slInsert, h1, slFind]
    · by_cases h2 : k = k0
      · simp [slInsert, h1, h2, slFind]
      · simp [slInsert, h1, h2, slFind, ih]

theorem slFind_slInsert_ne (l : Skiplist) (k d k2 : Nat) (h : k2 ≠ k) :
    slFind (slInsert l k d) k2 = slFind l k2 := by
  induction l with
  | nil => simp [slInsert, slFind, h]
  | cons e t ih =>
    obtain ⟨k0, d0⟩ := e
    by_cases h1 : k < k0
    · simp [slInsert, h1, slFind, h]
    · by_cases h2 : k = k0
      · subst h2; simp [slInsert, h1, slFind, h]
      · by_cases h3 : k2 = k0
        · simp [slInsert, h1, h2, slFind, h3]
        · simp [slInsert, h1, h2, slFind, h3, ih]

theorem slRemove_of_not_mem (l : Skiplist) (k : Nat) (h : slFind l k = none) :
    slRemove l k = l := by
  induction l with
  | nil => rfl
  | cons e t ih =>
    obtain ⟨k0, d0⟩ := e
    by_cases h1 : k = k0
    · simp [slFind, h1] at h
    · simp [slFind, h1] at h
      simp [slRemove, h1, ih h]

theorem slFind_slRemove_ne (l : Skiplist) (k k2 : Nat) (h : k2 ≠ k) :
    slFind (slRemove l k) k2 = slFind l k2 := by
  induction l with
  | nil => rfl
  | cons e t ih =>
    obtain ⟨k0, d0⟩ := e
    by_cases h1 : k = k0
    · subst h1; simp [slRemove, slFind, h]
    · by_cases h2 : k2 = k0
      · simp [slRemove, slFind, h1, h2]
      · simp [slRemove, slFind, h1, h2, ih]

theorem slRemove_slInsert_fresh (l : Skiplist) (k d : Nat) (h : slFind l k = none) :
    slRemove (slInsert l k d) k = l := by
  induction l with
  | nil => simp [slInsert, slRemove]
  | cons e t ih =>
    obtain ⟨k0, d0⟩ := e
    by_cases h1 : k = k0
    · simp [slFind, h1] at h
    · simp [slFind, h1] at h
      by_cases h2 : k < k0
      · simp [slInsert, h2, slRemove, h1]
      · simp [slInsert, h2, h1, slRemove, ih h]

theorem slMarkDeleted_of_not_mem (l : Skiplist) (k : Nat) (h : slFind l k = none) :
    slMarkDeleted l k = l := by
  induction l with
  | nil => rfl
  | cons e t ih =>
    obtain ⟨k0, d0⟩ := e
    by_cases h1 : k = k0
    · simp [slFind, h1] at h
    · simp [slFind, h1] at h
      simp [slMarkDeleted, h1, ih h]

theorem slFind_slMarkDeleted_self (l : Skiplist) (k d : Nat) (h : slFind l k = some d) :
    slFind (slMarkDeleted l k) k = some ROOT_DELETED := by
  induction l with
  | nil => simp [slFind] at h
  | cons e t ih =>
    obtain ⟨k0, d0⟩ := e
    by_cases h1 : k = k0
    · simp [slMarkDeleted, h1, slFind]
    · simp [slFind, h1] at h
      simp [slMarkDeleted, h1, slFind, ih h]

theorem slMarkDeleted_keys (l : Skiplist) (k : Nat) :
    (slMarkDeleted l k).map Prod.fst = l.map Prod.fst := by
  induction l with
  | nil => rfl
  | cons e t ih =>
    obtain ⟨k0, d0⟩ := e
    by_cases h1 : k = k0
    · simp [slMarkDeleted, h1]
    · simp [slMarkDeleted, h1, ih]

theorem slFind_mem (l : Skiplist) (k d : Nat) (h : slFind l k = some d) : (k, d) ∈ l := by
  induction l with
  | nil => simp [slFind] at h
  | cons e t ih =>
    obtain ⟨k0, d0⟩ := e
    by_cases h1 : k = k0
    · simp [slFind, h1] at h
      simp [h1, h]
    · simp [slFind, h1] at h
      simp [ih h]

theorem mem_slInsert (l : Skiplist) (k d : Nat) (e : Nat × Nat) (h : e ∈ slInsert l k d) :
    e = (k, d) ∨ e ∈ l := by
  induction l with
  | nil => simp [slInsert] at h; simp [h]
  | cons e0 t ih =>
    obtain ⟨k0, d0⟩ := e0
    by_cases h1 : k < k0
    · simp [slInsert, h1] at h
      rcases h with h | h | h
      · exact Or.inl h
      · exact Or.inr (by simp [h])
      · exact Or.inr (by simp [h])
    · by_cases h2 : k = k0
      · subst h2
        simp [slInsert, h1] at h
        rcases h with h | h
        · exact Or.inl h
        · exact Or.inr (by simp [h])
      · simp [slInsert, h1, h2] at h
        rcases h with h | h
        · exact Or.inr (by simp [h])
        · rcases ih h with h3 | h3
          · exact Or.inl h3
          · exact Or.inr (by simp [h3])

theorem mem_slRemove (l : Skiplist) (k : Nat) (e : Nat × Nat) (h : e ∈ slRemove l k) :
    e ∈ l := by
  induction l with
  | nil => simp [slRemove] at h
  | cons e0 t ih =>
    obtain ⟨k0, d0⟩ := e0
    by_cases h1 : k = k0
    · simp [slRemove, h1] at h
      simp [h]
    · simp [slRemove, h1] at h
      rcases h with h | h
      · simp [h]
      · simp [ih h]

/-! ## State plumbing lemmas -/

theorem getReg_setReg (s : GlobalRoots) (L : RootList) (l : Skiplist) :
    getReg (setReg s L l) L = l := by cases L <;> rfl

theorem setReg_getReg (s : GlobalRoots) (L : RootList) :
    setReg s L (getReg s L) = s := by cases L <;> rfl

theorem setReg_mem (s : GlobalRoots) (L : RootList) (l : Skiplist) :
    (setReg s L l).mem = s.mem := by cases L <;> rfl

theorem setReg_iter (s : GlobalRoots) (L : RootList) (l : Skiplist) :
    (setReg s L l).iterating_roots = s.iterating_roots := by cases L <;> rfl

theorem delete_young_old_field (s : GlobalRoots) (r : Nat) :
    (caml_delete_global_root s .rootsYoung r).caml_global_roots_old
      = s.caml_global_roots_old := by
  by_cases h : 0 < s.iterating_roots <;> simp [caml_delete_global_root, h, setReg]

theorem modify_old_tracked_shape (s : GlobalRoots) (r : Nat) (v : GcVal)
    (hv : classify_gc_root v = GcRootClass.OLD)
    (hr : classify_gc_root (s.mem r) ≠ GcRootClass.UNTRACKED) :
    caml_modify_generational_global_root s r v = memWrite s r v := by
  simp [caml_modify_generational_global_root, hv, hr]

theorem register_young_shape (s : GlobalRoots) (r : Nat)
    (h : classify_gc_root (s.mem r) = GcRootClass.YOUNG) :
    caml_register_generational_global_root s r
      = caml_insert_global_root s .rootsYoung r := by
  simp [caml_register_generational_global_root, h]

theorem register_old_shape (s : GlobalRoots) (r : Nat)
    (h : classify_gc_root (s.mem r) = GcRootClass.OLD) :
    caml_register_generational_global_root s r
      = caml_insert_global_root s .rootsOld r := by
  simp [caml_register_generational_global_root, h]

/-! ## The claims -/

/-- Claim C3: if the new value classifies as Old and the root's current value
is tracked (Young or Old), set_generational_root performs no insertion into
and no removal from any registry — the young-to-old transition is deferred —
and the only state change is the assignment of the new value to the root's
memory slot. -/
theorem modify_to_old_on_tracked_root_only_writes (s : GlobalRoots) (r : Nat) (v : GcVal)
    (hv : classify_gc_root v = GcRootClass.OLD)
    (hr : classify_gc_root (s.mem r) ≠ GcRootClass.UNTRACKED) :
    caml_modify_generational_global_root s r v = memWrite s r v :=
  modify_old_tracked_shape s r v hv hr

theorem modify_to_old_on_tracked_root_only_writes_witness :
    classify_gc_root (GcVal.major 7) = GcRootClass.OLD ∧
    classify_gc_root ((initState (fun _ => GcVal.young 3)).mem 10) ≠ GcRootClass.UNTRACKED ∧
    caml_modify_generational_global_root (initState (fun _ => GcVal.young 3)) 10 (GcVal.major 7)
      = memWrite (initState (fun _ => GcVal.young 3)) 10 (GcVal.major 7) :=
  ⟨by decide, by decide,
    modify_to_old_on_tracked_root_only_writes _ 10 _ (by decide) (by decide)⟩

/-- Claim C7: unregistering a generational root goes by cases on the class of
its current value: Old deletes from the old registry and also from the young
registry; Young deletes from the young registry only, leaving the old
registry untouched; Untracked changes nothing. -/
theorem remove_generational_classify_cases (s : GlobalRoots) (r : Nat) :
    (classify_gc_root (s.mem r) = GcRootClass.OLD →
      caml_remove_generational_global_root s r =
        caml_delete_global_root (caml_delete_global_root s .rootsOld r) .rootsYoung r)
    ∧ (classify_gc_root (s.mem r) = GcRootClass.YOUNG →
      caml_remove_generational_global_root s r = caml_delete_global_root s .rootsYoung r
      ∧ (caml_remove_generational_global_root s r).caml_global_roots_old
          = s.caml_global_roots_old)
    ∧ (classify_gc_root (s.mem r) = GcRootClass.UNTRACKED →
      caml_remove_generational_global_root s r = s) := by
  refine ⟨fun h => ?_, fun h => ⟨?_, ?_⟩, fun h => ?_⟩
  · simp [caml_remove_generational_global_root, h]
  · simp [caml_remove_generational_global_root, h]
  · rw [show caml_remove_generational_global_root s r
        = caml_delete_global_root s .rootsYoung r by
      simp [caml_remove_generational_global_root, h]]
    exact delete_young_old_field s r
  · simp [caml_remove_generational_global_root, h]

theorem remove_generational_classify_cases_witness :
    classify_gc_root ((initState (fun _ => GcVal.major 5)).mem 10) = GcRootClass.OLD ∧
    caml_remove_generational_global_root (initState (fun _ => GcVal.major 5)) 10 =
      caml_delete_global_root
        (caml_delete_global_root (initState (fun _ => GcVal.major 5)) .rootsOld 10)
        .rootsYoung 10 :=
  ⟨by decide, (remove_generational_classify_cases _ 10).1 (by decide)⟩

/-- Claim C6: removal protocol of caml_delete_global_root, for every registry
and root address.  With a positive iteration-depth counter the matching entry
is marked ROOT_DELETED in place, the registry's key set is unchanged, and an
absent address is a no-op; with the counter at zero the entry is removed
structurally, and an absent address is again a no-op. -/
theorem delete_global_root_protocol (s : GlobalRoots) (L : RootList) (r : Nat) :
    (0 < s.iterating_roots →
      (getReg (caml_delete_global_root s L r) L).map Prod.fst
          = (getReg s L).map Prod.fst
      ∧ (∀ d, slFind (getReg s L) r = some d →
          slFind (getReg (caml_delete_global_root s L r) L) r = some ROOT_DELETED)
      ∧ (slFind (getReg s L) r = none → caml_delete_global_root s L r = s))
    ∧ (s.iterating_roots = 0 →
      getReg (caml_delete_global_root s L r) L = slRemove (getReg s L) r
      ∧ (slFind (getReg s L) r = none → caml_delete_global_root s L r = s)) := by
  constructor
  · intro hpos
    have e : caml_delete_global_root s L r = setReg s L (slMarkDeleted (getReg s L) r) := by
      simp [caml_delete_global_root, hpos]
    refine ⟨?_, fun d hd => ?_, fun hnone => ?_⟩
    · rw [e, getReg_setReg, slMarkDeleted_keys]
    · rw [e, getReg_setReg]
      exact slFind_slMarkDeleted_self _ _ d hd
    · rw [e, slMarkDeleted_of_not_mem _ _ hnone, setReg_getReg]
  · intro hz
    have hnpos : ¬ 0 < s.iterating_roots := by omega
    have e : caml_delete_global_root s L r = setReg s L (slRemove (getReg s L) r) := by
      simp [caml_delete_global_root, hnpos]
    refine ⟨?_, fun hnone => ?_⟩
    · rw [e, getReg_setReg]
    · rw [e, slRemove_of_not_mem _ _ hnone, setReg_getReg]

theorem delete_global_root_protocol_witness :
    0 < (GlobalRoots.mk [] [(10, ROOT_PRESENT)] [] 1 (fun _ => GcVal.imm 0)).iterating_roots ∧
    slFind (getReg
      (caml_delete_global_root
        (GlobalRoots.mk [] [(10, ROOT_PRESENT)] [] 1 (fun _ => GcVal.imm 0))
        RootList.rootsYoung 10)
      RootList.rootsYoung) 10 = some ROOT_DELETED :=
  ⟨by decide,
    ((delete_global_root_protocol
        (GlobalRoots.mk [] [(10, ROOT_PRESENT)] [] 1 (fun _ => GcVal.imm 0))
        RootList.rootsYoung 10).1 (by decide)).2.1 ROOT_PRESENT (by decide)⟩

/-- Claim C4, evaluated at the failing input: registering a generational root
whose value is a word-aligned pointer outside the managed heap inserts it
into the Old registry (classify_gc_root has no in-heap test, so every block
that is not young is OLD), contradicting the claim and the invariant comment
of globroots.c that neither registry contains such a root. -/
theorem register_outside_heap_pointer_inserts_into_old :
    classify_gc_root (GcVal.outside 100) = GcRootClass.OLD ∧
    slFind ((caml_register_generational_global_root
        (initState (fun a => if a = 10 then GcVal.outside 100 else GcVal.imm 0)) 10)
      ).caml_global_roots_old 10 = some ROOT_PRESENT ∧
    ((caml_register_generational_global_root
        (initState (fun a => if a = 10 then GcVal.outside 100 else GcVal.imm 0)) 10)
      ).caml_global_roots_young = [] := by
  decide

/-- Claim C2 counterexample: register a root whose value points into the
young generation, then set it to an old-generation value: the root is still
present in the Young registry and absent from the Old registry, so "A moves
out of Young and into Old" is false at this input. -/
theorem modify_to_old_does_not_move_to_old_cex :
    slFind ((caml_modify_generational_global_root
        (caml_register_generational_global_root
          (initState (fun a => if a = 10 then GcVal.young 100 else GcVal.imm 0)) 10)
        10 (GcVal.major 200)).caml_global_roots_young) 10 = some ROOT_PRESENT ∧
    slFind ((caml_modify_generational_global_root
        (caml_register_generational_global_root
          (initState (fun a => if a = 10 then GcVal.young 100 else GcVal.imm 0)) 10)
        10 (GcVal.major 200)).caml_global_roots_old) 10 = none ∧
    ¬ (slFind ((caml_modify_generational_global_root
        (caml_register_generational_global_root
          (initState (fun a => if a = 10 then GcVal.young 100 else GcVal.imm 0)) 10)
        10 (GcVal.major 200)).caml_global_roots_young) 10 = none ∧
      slFind ((caml_modify_generational_global_root
        (caml_register_generational_global_root
          (initState (fun a => if a = 10 then GcVal.young 100 else GcVal.imm 0)) 10)
        10 (GcVal.major 200)).caml_global_roots_old) 10 = some ROOT_PRESENT) := by
  decide

/-- Claim C2 (amended): after registering A with a young-pointing value and
calling set_generational_root(A, v) with v old-pointing, A remains present in
the Young registry, the Old registry is unchanged (A is not inserted into
it — the move is deferred to the next minor scan), and *A = v. -/
theorem modify_to_old_keeps_root_in_young (s : GlobalRoots) (A : Nat) (v : GcVal)
    (hA : classify_gc_root (s.mem A) = GcRootClass.YOUNG)
    (hv : classify_gc_root v = GcRootClass.OLD)
    (hO : slFind s.caml_global_roots_old A = none) :
    slFind ((caml_modify_generational_global_root
        (caml_register_generational_global_root s A) A v).caml_global_roots_young) A
      = some ROOT_PRESENT ∧
    (caml_modify_generational_global_root
        (caml_register_generational_global_root s A) A v).caml_global_roots_old
      = s.caml_global_roots_old ∧
    slFind ((caml_modify_generational_global_root
        (caml_register_generational_global_root s A) A v).caml_global_roots_old) A
      = none ∧
    (caml_modify_generational_global_root
        (caml_register_generational_global_root s A) A v).mem A = v := by
  have hreg := register_young_shape s A hA
  have hmemeq : (caml_insert_global_root s .rootsYoung A).mem = s.mem := by
    simp [caml_insert_global_root, setReg_mem]
  have htracked : classify_gc_root ((caml_insert_global_root s .rootsYoung A).mem A)
      ≠ GcRootClass.UNTRACKED := by
    rw [hmemeq, hA]; simp
  have hmod := modify_old_tracked_shape (caml_insert_global_root s .rootsYoung A) A v hv htracked
  rw [hreg, hmod]
  refine ⟨?_, ?_, ?_, ?_⟩
  · show slFind (slInsert s.caml_global_roots_young A ROOT_PRESENT) A = some ROOT_PRESENT
    exact slFind_slInsert_self _ _ _
  · rfl
  · show slFind s.caml_global_roots_old A = none
    exact hO
  · show (if A = A then v else s.mem A) = v
    simp

theorem modify_to_old_keeps_root_in_young_witness :
    classify_gc_root ((initState (fun a => if a = 10 then GcVal.young 100 else GcVal.imm 0)).mem
      10) = GcRootClass.YOUNG ∧
    classify_gc_root (GcVal.major 200) = GcRootClass.OLD ∧
    slFind ((caml_modify_generational_global_root
        (caml_register_generational_global_root
          (initState (fun a => if a = 10 then GcVal.young 100 else GcVal.imm 0)) 10)
        10 (GcVal.major 200)).caml_global_roots_young) 10 = some ROOT_PRESENT :=
  ⟨by decide, by decide,
    (modify_to_old_keeps_root_in_young
      (initState (fun a => if a = 10 then GcVal.young 100 else GcVal.imm 0)) 10
      (GcVal.major 200) (by decide) (by decide) (by decide)).1⟩

theorem insert_young_fields (s : GlobalRoots) (r : Nat) :
    caml_insert_global_root s .rootsYoung r =
      { s with caml_global_roots_young := slInsert s.caml_global_roots_young r ROOT_PRESENT } :=
  rfl

theorem insert_old_fields (s : GlobalRoots) (r : Nat) :
    caml_insert_global_root s .rootsOld r =
      { s with caml_global_roots_old := slInsert s.caml_global_roots_old r ROOT_PRESENT } :=
  rfl

theorem delete_young_rest (s : GlobalRoots) (r : Nat) (h : s.iterating_roots = 0) :
    caml_delete_global_root s .rootsYoung r =
      { s with caml_global_roots_young := slRemove s.caml_global_roots_young r } := by
  simp [caml_delete_global_root, h, setReg, getReg]

theorem delete_old_rest (s : GlobalRoots) (r : Nat) (h : s.iterating_roots = 0) :
    caml_delete_global_root s .rootsOld r =
      { s with caml_global_roots_old := slRemove s.caml_global_roots_old r } := by
  simp [caml_delete_global_root, h, setReg, getReg]

theorem modify_untracked_shape (s : GlobalRoots) (r : Nat) (v : GcVal)
    (hv : classify_gc_root v = GcRootClass.UNTRACKED) :
    caml_modify_generational_global_root s r v
      = memWrite (caml_remove_generational_global_root s r) r v := by
  simp [caml_modify_generational_global_root, hv]

theorem remove_generational_young_shape (s : GlobalRoots) (r : Nat)
    (h : classify_gc_root (s.mem r) = GcRootClass.YOUNG) :
    caml_remove_generational_global_root s r = caml_delete_global_root s .rootsYoung r := by
  simp [caml_remove_generational_global_root, h]

theorem remove_generational_old_shape (s : GlobalRoots) (r : Nat)
    (h : classify_gc_root (s.mem r) = GcRootClass.OLD) :
    caml_remove_generational_global_root s r =
      caml_delete_global_root (caml_delete_global_root s .rootsOld r) .rootsYoung r := by
  simp [caml_remove_generational_global_root, h]

theorem remove_generational_untracked_shape (s : GlobalRoots) (r : Nat)
    (h : classify_gc_root (s.mem r) = GcRootClass.UNTRACKED) :
    caml_remove_generational_global_root s r = s := by
  simp [caml_remove_generational_global_root, h]

/-- Claim C8 (P1): for an address A not already registered, whose value points
into the young generation, with no scan in progress, registering and then
unregistering A leaves the Young and Old registries at the sizes they had
before the registration (strongly: both registries are restored exactly). -/
theorem register_then_remove_restores_sizes (s : GlobalRoots) (A : Nat)
    (hiter : s.iterating_roots = 0)
    (hA : classify_gc_root (s.mem A) = GcRootClass.YOUNG)
    (hfresh : slFind s.caml_global_roots_young A = none) :
    (caml_remove_generational_global_root
        (caml_register_generational_global_root s A) A).caml_global_roots_young.length
      = s.caml_global_roots_young.length ∧
    (caml_remove_generational_global_root
        (caml_register_generational_global_root s A) A).caml_global_roots_old.length
      = s.caml_global_roots_old.length ∧
    (caml_remove_generational_global_root
        (caml_register_generational_global_root s A) A).caml_global_roots_young
      = s.caml_global_roots_young ∧
    (caml_remove_generational_global_root
        (caml_register_generational_global_root s A) A).caml_global_roots_old
      = s.caml_global_roots_old := by
  rw [register_young_shape s A hA, insert_young_fields]
  rw [remove_generational_young_shape _ A (by exact hA)]
  rw [delete_young_rest _ A (by exact hiter)]
  simp [slRemove_slInsert_fresh _ _ _ hfresh]

theorem register_then_remove_restores_sizes_witness :
    (initState (fun a => if a = 10 then GcVal.young 100 else GcVal.imm 0)).iterating_roots = 0 ∧
    classify_gc_root ((initState
      (fun a => if a = 10 then GcVal.young 100 else GcVal.imm 0)).mem 10)
      = GcRootClass.YOUNG ∧
    (caml_remove_generational_global_root
        (caml_register_generational_global_root
          (initState (fun a => if a = 10 then GcVal.young 100 else GcVal.imm 0)) 10)
        10).caml_global_roots_young.length
      = (initState
          (fun a => if a = 10 then GcVal.young 100 else GcVal.imm 0)
        ).caml_global_roots_young.length :=
  ⟨by decide, by decide,
    (register_then_remove_restores_sizes
      (initState (fun a => if a = 10 then GcVal.young 100 else GcVal.imm 0)) 10
      (by decide) (by decide) (by decide)).1⟩

/-- Claim C9 (P5): register A as a generational root holding a heap value
(not already registered, no scan in progress), then set it to a small
integer: A is afterwards absent from both the Young and Old registries and
*A holds the integer; a later unregister of A changes nothing (a safe
no-op on a root no longer tracked). -/
theorem modify_to_immediate_untracks_root (s : GlobalRoots) (A : Nat) (i : Int)
    (hiter : s.iterating_roots = 0)
    (hheap : classify_gc_root (s.mem A) ≠ GcRootClass.UNTRACKED)
    (hfy : slFind s.caml_global_roots_young A = none)
    (hfo : slFind s.caml_global_roots_old A = none) :
    slFind (caml_modify_generational_global_root
        (caml_register_generational_global_root s A) A
        (GcVal.imm i)).caml_global_roots_young A = none ∧
    slFind (caml_modify_generational_global_root
        (caml_register_generational_global_root s A) A
        (GcVal.imm i)).caml_global_roots_old A = none ∧
    (caml_modify_generational_global_root
        (caml_register_generational_global_root s A) A (GcVal.imm i)).mem A = GcVal.imm i ∧
    caml_remove_generational_global_root
        (caml_modify_generational_global_root
          (caml_register_generational_global_root s A) A (GcVal.imm i)) A
      = caml_modify_generational_global_root
          (caml_register_generational_global_root s A) A (GcVal.imm i) := by
  have himm : classify_gc_root (GcVal.imm i) = GcRootClass.UNTRACKED := by
    simp [classify_gc_root, Is_block]
  rcases hc : classify_gc_root (s.mem A) with _ | _ | _
  · -- current value young: registered into the young registry
    rw [register_young_shape s A hc, insert_young_fields]
    rw [modify_untracked_shape _ A _ himm]
    rw [remove_generational_young_shape _ A (by exact hc)]
    rw [delete_young_rest _ A (by exact hiter)]
    simp only [memWrite]
    rw [slRemove_slInsert_fresh _ _ _ hfy]
    refine ⟨hfy, hfo, by simp, ?_⟩
    apply remove_generational_untracked_shape
    simp [himm]
  · -- current value old: registered into the old registry
    rw [register_old_shape s A hc, insert_old_fields]
    rw [modify_untracked_shape _ A _ himm]
    rw [remove_generational_old_shape _ A (by exact hc)]
    rw [delete_old_rest _ A (by exact hiter)]
    rw [delete_young_rest _ A (by exact hiter)]
    simp only [memWrite]
    rw [slRemove_slInsert_fresh _ _ _ hfo]
    rw [slRemove_of_not_mem _ _ hfy]
    refine ⟨hfy, hfo, by simp, ?_⟩
    apply remove_generational_untracked_shape
    simp [himm]
  · exact absurd hc hheap

theorem modify_to_immediate_untracks_root_witness :
    classify_gc_root ((initState (fun a => if a = 10 then GcVal.young 100 else GcVal.imm 0)).mem
      10) ≠ GcRootClass.UNTRACKED ∧
    slFind (caml_modify_generational_global_root
        (caml_register_generational_global_root
          (initState (fun a => if a = 10 then GcVal.young 100 else GcVal.imm 0)) 10) 10
        (GcVal.imm 7)).caml_global_roots_young 10 = none :=
  ⟨by decide,
    (modify_to_immediate_untracks_root
      (initState (fun a => if a = 10 then GcVal.young 100 else GcVal.imm 0)) 10 7
      (by decide) (by decide) (by decide) (by decide)).1⟩

/-- Claim C5 (P3): starting from empty registries, register a root A whose
value points into the young generation and run the minor scan: afterwards A
is absent from the Young registry, the Young registry is empty, A is present
in the Old registry, and a subsequent full scan invokes the callback on A
exactly once. -/
theorem promote_moves_young_root_to_old_and_scan_visits_once
    (m : Nat → GcVal) (A : Nat) (h : classify_gc_root (m A) = GcRootClass.YOUNG) :
    slFind (caml_scan_global_young_roots passiveCb
        (caml_register_generational_global_root (initState m) A)).1.caml_global_roots_young A
      = none ∧
    (caml_scan_global_young_roots passiveCb
        (caml_register_generational_global_root (initState m) A)).1.caml_global_roots_young
      = [] ∧
    slFind (caml_scan_global_young_roots passiveCb
        (caml_register_generational_global_root (initState m) A)).1.caml_global_roots_old A
      = some ROOT_PRESENT ∧
    (caml_scan_global_roots passiveCb
        (caml_scan_global_young_roots passiveCb
          (caml_register_generational_global_root (initState m) A)).1).2.count A = 1 := by
  rw [show caml_register_generational_global_root (initState m) A
      = caml_insert_global_root (initState m) .rootsYoung A from
    register_young_shape _ A (by exact h)]
  rw [insert_young_fields]
  simp [initState, caml_scan_global_young_roots, caml_scan_global_roots,
    caml_iterate_global_roots, iterKeys, getReg, setReg, passiveCb, promoteYoungIntoOld,
    slInsert, slFind, ROOT_PRESENT, ROOT_DELETED]

theorem promote_moves_young_root_to_old_and_scan_visits_once_witness :
    classify_gc_root ((fun a => if a = 10 then GcVal.young 100 else GcVal.imm 0) 10)
      = GcRootClass.YOUNG ∧
    slFind (caml_scan_global_young_roots passiveCb
        (caml_register_generational_global_root
          (initState (fun a => if a = 10 then GcVal.young 100 else GcVal.imm 0))
          10)).1.caml_global_roots_old 10 = some ROOT_PRESENT :=
  ⟨by decide,
    (promote_moves_young_root_to_old_and_scan_visits_once
      (fun a => if a = 10 then GcVal.young 100 else GcVal.imm 0) 10 (by decide)).2.2.1⟩

theorem promote_find_of_none (l : Skiplist) (o : Skiplist) (k : Nat)
    (h : slFind l k = none) :
    slFind (promoteYoungIntoOld l o) k = slFind o k := by
  induction l generalizing o with
  | nil => rfl
  | cons e t ih =>
    obtain ⟨k0, d0⟩ := e
    by_cases h1 : k = k0
    · simp [slFind, h1] at h
    · simp [slFind, h1] at h
      show slFind (promoteYoungIntoOld t (slInsert o k0 ROOT_PRESENT)) k = slFind o k
      rw [ih (slInsert o k0 ROOT_PRESENT) h, slFind_slInsert_ne _ _ _ _ h1]

theorem promote_find_present (l : Skiplist) (o : Skiplist) (k d : Nat)
    (h : slFind l k = some d) :
    slFind (promoteYoungIntoOld l o) k = some ROOT_PRESENT := by
  induction l generalizing o d with
  | nil => simp [slFind] at h
  | cons e t ih =>
    obtain ⟨k0, d0⟩ := e
    show slFind (promoteYoungIntoOld t (slInsert o k0 ROOT_PRESENT)) k = some ROOT_PRESENT
    by_cases h1 : k = k0
    · rcases h2 : slFind t k with _ | d2
      · rw [promote_find_of_none t _ k h2]
        subst h1
        exact slFind_slInsert_self _ _ _
      · exact ih _ _ h2
    · simp [slFind, h1] at h
      exact ih _ _ h

/-- Claim C10 (implicit): the promotion loop of the minor scan inserts every
entry remaining in the Young registry into the Old registry with data
ROOT_PRESENT, whatever that entry's Present/Deleted mark; consequently a
young root unregistered from inside the scan callback at its own visit
(hence tombstoned, since the iteration counter is positive) reappears in the
Old registry as a Present entry and is visited by the next full scan. -/
theorem promote_reinserts_tombstoned_young_entries :
    (∀ (l o : Skiplist) (k d : Nat), slFind l k = some d →
      slFind (promoteYoungIntoOld l o) k = some ROOT_PRESENT) ∧
    (slFind (caml_scan_global_young_roots
        (fun s _ k => if k = 10 then caml_remove_generational_global_root s 10 else s)
        (GlobalRoots.mk [] [(10, ROOT_PRESENT)] [] 0
          (fun a => if a = 10 then GcVal.young 100 else GcVal.imm 0))
      ).1.caml_global_roots_young 10 = none ∧
     slFind (caml_scan_global_young_roots
        (fun s _ k => if k = 10 then caml_remove_generational_global_root s 10 else s)
        (GlobalRoots.mk [] [(10, ROOT_PRESENT)] [] 0
          (fun a => if a = 10 then GcVal.young 100 else GcVal.imm 0))
      ).1.caml_global_roots_old 10 = some ROOT_PRESENT ∧
     (caml_scan_global_roots passiveCb
        (caml_scan_global_young_roots
          (fun s _ k => if k = 10 then caml_remove_generational_global_root s 10 else s)
          (GlobalRoots.mk [] [(10, ROOT_PRESENT)] [] 0
            (fun a => if a = 10 then GcVal.young 100 else GcVal.imm 0))
        ).1).2.count 10 = 1) :=
  ⟨fun l o k d h => promote_find_present l o k d h, by decide⟩

theorem promote_reinserts_tombstoned_young_entries_witness :
    slFind [(10, ROOT_DELETED)] 10 = some ROOT_DELETED ∧
    slFind (promoteYoungIntoOld [(10, ROOT_DELETED)] []) 10 = some ROOT_PRESENT :=
  ⟨by decide,
    promote_reinserts_tombstoned_young_entries.1 [(10, ROOT_DELETED)] [] 10 ROOT_DELETED
      (by decide)⟩

/-! ## Reachability invariant for the generational registries -/

theorem regAllPresent_slInsert (l : Skiplist) (k : Nat) (h : regAllPresent l) :
    regAllPresent (slInsert l k ROOT_PRESENT) := by
  intro e he
  rcases mem_slInsert l k ROOT_PRESENT e he with h1 | h1
  · rw [h1]
  · exact h e h1

theorem regAllPresent_slRemove (l : Skiplist) (k : Nat) (h : regAllPresent l) :
    regAllPresent (slRemove l k) :=
  fun e he => h e (mem_slRemove l k e he)

theorem regAllPresent_promote (l o : Skiplist) (ho : regAllPresent o) :
    regAllPresent (promoteYoungIntoOld l o) := by
  induction l generalizing o with
  | nil => exact ho
  | cons e t ih =>
    obtain ⟨k0, d0⟩ := e
    exact ih (slInsert o k0 ROOT_PRESENT) (regAllPresent_slInsert o k0 ho)

theorem keySorted_slInsert (l : Skiplist) (k d : Nat) (h : keySorted l) :
    keySorted (slInsert l k d) := by
  induction l with
  | nil => simp [slInsert, keySorted]
  | cons e t ih =>
    obtain ⟨k0, d0⟩ := e
    rw [keySorted, List.pairwise_cons] at h
    obtain ⟨hhead, htail⟩ := h
    by_cases h1 : k < k0
    · rw [keySorted, show slInsert ((k0, d0) :: t) k d = (k, d) :: (k0, d0) :: t from by
        simp [slInsert, h1]]
      rw [List.pairwise_cons]
      constructor
      · intro b hb
        rcases List.mem_cons.1 hb with hb1 | hb1
        · rw [hb1]; exact h1
        · exact Nat.lt_trans h1 (hhead b hb1)
      · rw [List.pairwise_cons]; exact ⟨hhead, htail⟩
    · by_cases h2 : k = k0
      · rw [keySorted, show slInsert ((k0, d0) :: t) k d = (k, d) :: t from by
          simp [slInsert, h1, h2]]
        rw [List.pairwise_cons]
        subst h2
        exact ⟨hhead, htail⟩
      · rw [keySorted, show slInsert ((k0, d0) :: t) k d = (k0, d0) :: slInsert t k d from by
          simp [slInsert, h1, h2]]
        rw [List.pairwise_cons]
        constructor
        · intro b hb
          rcases mem_slInsert t k d b hb with hb1 | hb1
          · rw [hb1]
            show k0 < k
            omega
          · exact hhead b hb1
        · exact ih htail

theorem keySorted_slRemove (l : Skiplist) (k : Nat) (h : keySorted l) :
    keySorted (slRemove l k) := by
  induction l with
  | nil => exact h
  | cons e t ih =>
    obtain ⟨k0, d0⟩ := e
    rw [keySorted, List.pairwise_cons] at h
    obtain ⟨hhead, htail⟩ := h
    by_cases h1 : k = k0
    · rw [show slRemove ((k0, d0) :: t) k = t from by simp [slRemove, h1]]
      exact htail
    · rw [keySorted, show slRemove ((k0, d0) :: t) k = (k0, d0) :: slRemove t k from by
        simp [slRemove, h1]]
      rw [List.pairwise_cons]
      exact ⟨fun b hb => hhead b (mem_slRemove t k b hb), ih htail⟩

theorem ne_of_mem_slRemove_sorted (l : Skiplist) (k : Nat) (h : keySorted l) :
    ∀ e ∈ slRemove l k, e.1 ≠ k := by
  induction l with
  | nil => simp [slRemove]
  | cons e0 t ih =>
    obtain ⟨k0, d0⟩ := e0
    rw [keySorted, List.pairwise_cons] at h
    obtain ⟨hhead, htail⟩ := h
    by_cases h1 : k = k0
    · rw [show slRemove ((k0, d0) :: t) k = t from by simp [slRemove, h1]]
      intro e he
      have := hhead e he
      omega
    · rw [show slRemove ((k0, d0) :: t) k = (k0, d0) :: slRemove t k from by
        simp [slRemove, h1]]
      intro e he
      rcases List.mem_cons.1 he with he1 | he1
      · rw [he1]
        intro hx
        exact h1 hx.symm
      · exact ih htail e he1

theorem iterKeys_passive_state (L : RootList) (keys : List Nat) (s : GlobalRoots)
    (hp : regAllPresent (getReg s L)) :
    (iterKeys passiveCb L s keys).1 = s := by
  induction keys with
  | nil => rfl
  | cons k rest ih =>
    rcases hf : slFind (getReg s L) k with _ | d
    · simp [iterKeys, hf, ih]
    · have hd : d = ROOT_PRESENT := hp _ (slFind_mem _ _ _ hf)
      subst hd
      simp [iterKeys, hf, ROOT_PRESENT, ROOT_DELETED, passiveCb, ih]

theorem scanAll_passive_state (ra ry ro : Skiplist) (it : Nat) (m : Nat → GcVal)
    (h1 : regAllPresent ra) (h2 : regAllPresent ry) (h3 : regAllPresent ro) :
    (caml_scan_global_roots passiveCb (GlobalRoots.mk ra ry ro it m)).1
      = GlobalRoots.mk ra ry ro it m := by
  have e1 := iterKeys_passive_state RootList.roots (ra.map Prod.fst)
      (GlobalRoots.mk ra ry ro (it + 1) m) (by exact h1)
  have e2 := iterKeys_passive_state RootList.rootsYoung (ry.map Prod.fst)
      (GlobalRoots.mk ra ry ro (it + 1) m) (by exact h2)
  have e3 := iterKeys_passive_state RootList.rootsOld (ro.map Prod.fst)
      (GlobalRoots.mk ra ry ro (it + 1) m) (by exact h3)
  simp [caml_scan_global_roots, caml_iterate_global_roots, getReg, e1, e2, e3]

theorem scanYoung_passive_state (ra ry ro : Skiplist) (it : Nat) (m : Nat → GcVal)
    (h1 : regAllPresent ra) (h2 : regAllPresent ry) :
    (caml_scan_global_young_roots passiveCb (GlobalRoots.mk ra ry ro it m)).1
      = GlobalRoots.mk ra [] (promoteYoungIntoOld ry ro) it m := by
  have e1 := iterKeys_passive_state RootList.roots (ra.map Prod.fst)
      (GlobalRoots.mk ra ry ro (it + 1) m) (by exact h1)
  have e2 := iterKeys_passive_state RootList.rootsYoung (ry.map Prod.fst)
      (GlobalRoots.mk ra ry ro (it + 1) m) (by exact h2)
  simp [caml_scan_global_young_roots, caml_iterate_global_roots, getReg, e1, e2]

theorem insert_roots_fields (s : GlobalRoots) (r : Nat) :
    caml_register_global_root s r =
      { s with caml_global_roots := slInsert s.caml_global_roots r ROOT_PRESENT } :=
  rfl

theorem delete_roots_rest (s : GlobalRoots) (r : Nat) (h : s.iterating_roots = 0) :
    caml_delete_global_root s .roots r =
      { s with caml_global_roots := slRemove s.caml_global_roots r } := by
  simp [caml_delete_global_root, h, setReg, getReg]

theorem modify_young_shape (s : GlobalRoots) (r : Nat) (v : GcVal)
    (hv : classify_gc_root v = GcRootClass.YOUNG) :
    caml_modify_generational_global_root s r v =
      memWrite
        (if classify_gc_root (s.mem r) ≠ GcRootClass.YOUNG then
          caml_insert_global_root
            (if classify_gc_root (s.mem r) = GcRootClass.OLD then
              caml_delete_global_root s .rootsOld r
            else s) .rootsYoung r
        else
          (if classify_gc_root (s.mem r) = GcRootClass.OLD then
            caml_delete_global_root s .rootsOld r
          else s)) r v := by
  simp [caml_modify_generational_global_root, hv]

theorem modify_oldnew_shape (s : GlobalRoots) (r : Nat) (v : GcVal)
    (hv : classify_gc_root v = GcRootClass.OLD) :
    caml_modify_generational_global_root s r v =
      memWrite
        (if classify_gc_root (s.mem r) = GcRootClass.UNTRACKED then
          caml_insert_global_root s .rootsOld r
        else s) r v := by
  simp [caml_modify_generational_global_root, hv]

theorem rootsInv_memWrite (s : GlobalRoots) (r : Nat) (v : GcVal)
    (h : RootsInv s) (hv : classify_gc_root v ≠ GcRootClass.UNTRACKED) :
    RootsInv (memWrite s r v) := by
  obtain ⟨hit, hra, hry, hro, hsy, hcl⟩ := h
  refine ⟨hit, hra, hry, hro, hsy, ?_⟩
  intro e he
  show classify_gc_root (if e.1 = r then v else s.mem e.1) ≠ GcRootClass.UNTRACKED
  by_cases her : e.1 = r
  · rw [if_pos her]; exact hv
  · rw [if_neg her]; exact hcl e he

theorem rootsInv_memWrite_notmem (s : GlobalRoots) (r : Nat) (v : GcVal)
    (h : RootsInv s) (hnm : ∀ e ∈ s.caml_global_roots_young, e.1 ≠ r) :
    RootsInv (memWrite s r v) := by
  obtain ⟨hit, hra, hry, hro, hsy, hcl⟩ := h
  refine ⟨hit, hra, hry, hro, hsy, ?_⟩
  intro e he
  show classify_gc_root (if e.1 = r then v else s.mem e.1) ≠ GcRootClass.UNTRACKED
  rw [if_neg (hnm e he)]
  exact hcl e he

theorem rootsInv_applyOp (s : GlobalRoots) (op : Op) (h : RootsInv s) :
    RootsInv (applyOp s op) := by
  obtain ⟨hit, hra, hry, hro, hsy, hcl⟩ := h
  cases op with
  | regMut r =>
    show RootsInv (caml_register_global_root s r)
    rw [insert_roots_fields]
    exact ⟨hit, regAllPresent_slInsert _ _ hra, hry, hro, hsy, hcl⟩
  | remMut r =>
    show RootsInv (caml_delete_global_root s .roots r)
    rw [delete_roots_rest s r hit]
    exact ⟨hit, regAllPresent_slRemove _ _ hra, hry, hro, hsy, hcl⟩
  | regGen r =>
    show RootsInv (caml_register_generational_global_root s r)
    rcases hc : classify_gc_root (s.mem r) with _ | _ | _
    · rw [register_young_shape s r hc, insert_young_fields]
      refine ⟨hit, hra, regAllPresent_slInsert _ _ hry, hro, keySorted_slInsert _ _ _ hsy, ?_⟩
      intro e he
      rcases mem_slInsert _ _ _ e he with h1 | h1
      · show classify_gc_root (s.mem e.1) ≠ GcRootClass.UNTRACKED
        rw [h1]
        simp [hc]
      · exact hcl e h1
    · rw [register_old_shape s r hc, insert_old_fields]
      exact ⟨hit, hra, hry, regAllPresent_slInsert _ _ hro, hsy, hcl⟩
    · rw [show caml_register_generational_global_root s r = s from by
        simp [caml_register_generational_global_root, hc]]
      exact ⟨hit, hra, hry, hro, hsy, hcl⟩
  | remGen r =>
    show RootsInv (caml_remove_generational_global_root s r)
    rcases hc : classify_gc_root (s.mem r) with _ | _ | _
    · rw [remove_generational_young_shape s r hc, delete_young_rest s r hit]
      exact ⟨hit, hra, regAllPresent_slRemove _ _ hry, hro, keySorted_slRemove _ _ hsy,
        fun e he => hcl e (mem_slRemove _ _ e he)⟩
    · rw [remove_generational_old_shape s r hc, delete_old_rest s r hit,
        delete_young_rest _ r (by exact hit)]
      exact ⟨hit, hra, regAllPresent_slRemove _ _ hry, regAllPresent_slRemove _ _ hro,
        keySorted_slRemove _ _ hsy, fun e he => hcl e (mem_slRemove _ _ e he)⟩
    · rw [remove_generational_untracked_shape s r hc]
      exact ⟨hit, hra, hry, hro, hsy, hcl⟩
  | modGen r v =>
    show RootsInv (caml_modify_generational_global_root s r v)
    rcases hv : classify_gc_root v with _ | _ | _
    · rcases hc : classify_gc_root (s.mem r) with _ | _ | _
      · rw [show caml_modify_generational_global_root s r v = memWrite s r v from by
          rw [modify_young_shape s r v hv]; simp [hc]]
        exact rootsInv_memWrite s r v ⟨hit, hra, hry, hro, hsy, hcl⟩ (by simp [hv])
      · rw [show caml_modify_generational_global_root s r v
            = memWrite (caml_insert_global_root
                (caml_delete_global_root s .rootsOld r) .rootsYoung r) r v from by
          rw [modify_young_shape s r v hv]; simp [hc]]
        rw [delete_old_rest s r hit, insert_young_fields]
        refine ⟨hit, hra, regAllPresent_slInsert _ _ hry, regAllPresent_slRemove _ _ hro,
          keySorted_slInsert _ _ _ hsy, ?_⟩
        intro e he
        show classify_gc_root (if e.1 = r then v else s.mem e.1) ≠ GcRootClass.UNTRACKED
        by_cases her : e.1 = r
        · rw [if_pos her]; simp [hv]
        · rw [if_neg her]
          rcases mem_slInsert _ _ _ e he with h1 | h1
          · exact absurd (by rw [h1]) her
          · exact hcl e h1
      · rw [show caml_modify_generational_global_root s r v
            = memWrite (caml_insert_global_root s .rootsYoung r) r v from by
          rw [modify_young_shape s r v hv]; simp [hc]]
        rw [insert_young_fields]
        refine ⟨hit, hra, regAllPresent_slInsert _ _ hry, hro,
          keySorted_slInsert _ _ _ hsy, ?_⟩
        intro e he
        show classify_gc_root (if e.1 = r then v else s.mem e.1) ≠ GcRootClass.UNTRACKED
        by_cases her : e.1 = r
        · rw [if_pos her]; simp [hv]
        · rw [if_neg her]
          rcases mem_slInsert _ _ _ e he with h1 | h1
          · exact absurd (by rw [h1]) her
          · exact hcl e h1
    · rw [modify_oldnew_shape s r v hv]
      by_cases hc : classify_gc_root (s.mem r) = GcRootClass.UNTRACKED
      · rw [if_pos hc, insert_old_fields]
        refine ⟨hit, hra, hry, regAllPresent_slInsert _ _ hro, hsy, ?_⟩
        intro e he
        show classify_gc_root (if e.1 = r then v else s.mem e.1) ≠ GcRootClass.UNTRACKED
        by_cases her : e.1 = r
        · rw [if_pos her]; simp [hv]
        · rw [if_neg her]; exact hcl e he
      · rw [if_neg hc]
        exact rootsInv_memWrite s r v ⟨hit, hra, hry, hro, hsy, hcl⟩ (by simp [hv])
    · rw [modify_untracked_shape s r v hv]
      rcases hc : classify_gc_root (s.mem r) with _ | _ | _
      · rw [remove_generational_young_shape s r hc, delete_young_rest s r hit]
        apply rootsInv_memWrite_notmem
        · exact ⟨hit, hra, regAllPresent_slRemove _ _ hry, hro, keySorted_slRemove _ _ hsy,
            fun e he => hcl e (mem_slRemove _ _ e he)⟩
        · exact fun e he => ne_of_mem_slRemove_sorted _ _ hsy e he
      · rw [remove_generational_old_shape s r hc, delete_old_rest s r hit,
          delete_young_rest _ r (by exact hit)]
        apply rootsInv_memWrite_notmem
        · exact ⟨hit, hra, regAllPresent_slRemove _ _ hry, regAllPresent_slRemove _ _ hro,
            keySorted_slRemove _ _ hsy, fun e he => hcl e (mem_slRemove _ _ e he)⟩
        · exact fun e he => ne_of_mem_slRemove_sorted _ _ hsy e he
      · rw [remove_generational_untracked_shape s r hc]
        apply rootsInv_memWrite_notmem
        · exact ⟨hit, hra, hry, hro, hsy, hcl⟩
        · intro e he her
          exact hcl e he (by rw [her]; exact hc)
  | scanAll =>
    show RootsInv (caml_scan_global_roots passiveCb s).1
    obtain ⟨ra, ry, ro, it, m⟩ := s
    rw [scanAll_passive_state ra ry ro it m hra hry hro]
    exact ⟨hit, hra, hry, hro, hsy, hcl⟩
  | scanYoung =>
    show RootsInv (caml_scan_global_young_roots passiveCb s).1
    obtain ⟨ra, ry, ro, it, m⟩ := s
    rw [scanYoung_passive_state ra ry ro it m hra hry]
    refine ⟨hit, hra, ?_, regAllPresent_promote _ _ hro, ?_, ?_⟩
    · intro e he
      exact absurd he (List.not_mem_nil e)
    · exact List.Pairwise.nil
    · intro e he
      exact absurd he (List.not_mem_nil e)

theorem rootsInv_runOps (m : Nat → GcVal) (ops : List Op) : RootsInv (runOps m ops) := by
  have hgen : ∀ (ops2 : List Op) (s : GlobalRoots), RootsInv s →
      RootsInv (List.foldl applyOp s ops2) := by
    intro ops2
    induction ops2 with
    | nil => exact fun s hs => hs
    | cons op rest ih => exact fun s hs => ih (applyOp s op) (rootsInv_applyOp s op hs)
  apply hgen
  refine ⟨rfl, ?_, ?_, ?_, ?_, ?_⟩
  · intro e he; exact absurd he (List.not_mem_nil e)
  · intro e he; exact absurd he (List.not_mem_nil e)
  · intro e he; exact absurd he (List.not_mem_nil e)
  · exact List.Pairwise.nil
  · intro e he; exact absurd he (List.not_mem_nil e)

/-- Claim C1 (amended): at every lock-free point — any state reached from the
initial state by a sequence of complete public operations — every root whose
address is in the Young registry currently holds a value the classifier
deems tracked, i.e. classify_gc_root of it is never UNTRACKED (it is never a
small integer).  It need not point into the young generation: the
deferred-promotion policy deliberately leaves a root in Young whose value
now classifies as OLD — which, since classify_gc_root has no in-heap test,
covers old-generation pointers and word-aligned pointers outside the
managed heap alike. -/
theorem young_registry_entries_never_untracked (m : Nat → GcVal) (ops : List Op)
    (k d : Nat)
    (h : slFind (runOps m ops).caml_global_roots_young k = some d) :
    classify_gc_root ((runOps m ops).mem k) ≠ GcRootClass.UNTRACKED := by
  obtain ⟨-, -, -, -, -, hcl⟩ := rootsInv_runOps m ops
  exact hcl (k, d) (slFind_mem _ _ _ h)

theorem young_registry_entries_never_untracked_witness :
    slFind (runOps (fun a => if a = 10 then GcVal.young 100 else GcVal.imm 0)
        [Op.regGen 10]).caml_global_roots_young 10 = some ROOT_PRESENT ∧
    classify_gc_root ((runOps (fun a => if a = 10 then GcVal.young 100 else GcVal.imm 0)
        [Op.regGen 10]).mem 10) ≠ GcRootClass.UNTRACKED :=
  ⟨by decide,
    young_registry_entries_never_untracked
      (fun a => if a = 10 then GcVal.young 100 else GcVal.imm 0)
      [Op.regGen 10] 10 ROOT_PRESENT (by decide)⟩

/-- Claim C1 counterexample: registering root 10 while it holds a young value
and then setting it to an old-generation value reaches a lock-free state in
which root 10 is still present in the Young registry while its current value
points into the old generation, so invariant I1 as stated (a root in Young
always currently holds a reference into the young generation) is false. -/
theorem young_registry_entry_holding_old_value_cex :
    slFind (runOps (fun a => if a = 10 then GcVal.young 100 else GcVal.imm 0)
        [Op.regGen 10, Op.modGen 10 (GcVal.major 200)]).caml_global_roots_young 10
      = some ROOT_PRESENT ∧
    classify_gc_root ((runOps (fun a => if a = 10 then GcVal.young 100 else GcVal.imm 0)
        [Op.regGen 10, Op.modGen 10 (GcVal.major 200)]).mem 10) = GcRootClass.OLD ∧
    ¬ classify_gc_root ((runOps (fun a => if a = 10 then GcVal.young 100 else GcVal.imm 0)
        [Op.regGen 10, Op.modGen 10 (GcVal.major 200)]).mem 10) = GcRootClass.YOUNG := by
  decide
